import Mathlib

/-!
Shallow embedding of the deposit-queue simulation engine of
src/App.tsx (the x2gether protocol simulator).  Currency amounts are
modelled as rationals.  The JavaScript Math.random draws are passed in
as explicit parameters, and Date.now / uuidv4 are passed in as the
parameters now and uid.
-/

/-- Identity of a queue position.  In the source, ids are strings:
the protocol seed is the literal PROTOCOL_SEED, user positions get a
fresh uuidv4, and bots get JACKPOT_BOT_n / TAX_BOT_n where n is the
historyCount at injection time. -/
inductive PlayerId where
  | seed : PlayerId
  | user : ℕ → PlayerId
  | jackpotBot : ℕ → PlayerId
  | taxBot : ℕ → PlayerId
deriving DecidableEq

/-- One queue position (interface Player of src/types.ts; the fields
the engine reads or writes). -/
structure Player where
  id : PlayerId
  deposit : ℚ
  target : ℚ
  collected : ℚ
  entryRound : ℕ
  timestamp : ℕ
  slashed : Bool
  multiplier : ℚ
  isTaxTarget : Bool
  fastFilled : Bool
deriving DecidableEq

/-- enum DistributionStrategy of src/types.ts. -/
inductive DistributionStrategy where
  | STANDARD
  | COMMUNITY_YIELD
  | INFINITY_LOOP
deriving DecidableEq

/-- interface SimulationConfig of src/types.ts (the fields the engine reads). -/
structure SimulationConfig where
  feePercent : ℚ
  guillotineStrength : ℚ
  guillotineThreshold : ℚ
  guillotineInterval : ℕ
  winnersTaxRate : ℚ
  winnersTaxFrequency : ℕ
  dailyDripRate : ℚ
  decayRate : ℚ
  decayMinPercent : ℚ
  decayMaxPercent : ℚ
  randomDecayEnabled : Bool
  randomDecayMin : ℚ
  randomDecayMax : ℚ
  randomDecayFrequency : ℕ
  initialReserve : ℚ
  taxBotEnabled : Bool
  taxBotFrequency : ℕ
  taxBotAmount : ℚ
  jackpotFrequency : ℕ
  jackpotAmount : ℚ
deriving DecidableEq

/-- interface ChartDataPoint of src/types.ts (the source stores
state.totalDeposited in the field named round). -/
structure ChartPoint where
  round : ℚ
  usersTrapped : ℕ
  requiredNewLiquidity : ℚ
deriving DecidableEq

/-- interface EngineState of src/App.tsx. -/
structure EngineState where
  queue : List Player
  historyCount : ℕ
  historySum : ℚ
  totalDeposited : ℚ
  protocolBalance : ℚ
  jackpotBalance : ℚ
  currentRound : ℕ
  chartData : List ChartPoint
  tickCount : ℕ
  config : SimulationConfig
  currentRandomMultiplier : ℚ
deriving DecidableEq

/-- The React component state that the engine closure reads directly
(not part of EngineState in the source): the selected strategy, the
base multiplier slider, and the three toggle switches. -/
structure Controls where
  strategy : DistributionStrategy
  multiplier : ℚ
  guillotineEnabled : Bool
  dynamicDecayEnabled : Bool
  winnersTaxEnabled : Bool
deriving DecidableEq

/-- The Math.random draws one call of processDeposit may consume:
mult is the draw for the random-decay redraw, slash gives the raw
draw for iteration k of the guillotine victim loop (the source uses
Math.floor(Math.random() * pool.length); we model it as slash k taken
modulo the current pool length). -/
structure RandomDraws where
  mult : ℚ
  slash : ℕ → ℕ

/-- DAILY_DRIP_INTERVAL of src/App.tsx. -/
def DAILY_DRIP_INTERVAL : ℕ := 240

/-- The FIFO head-fill loop (step 7 of processDeposit and the loop of
triggerDailyDrip in src/App.tsx are this same loop): walk the queue in
insertion order; each position with positive remaining need receives
min(remaining, need); stop when the pool is exhausted.  Returns the
leftover pool and the updated queue. -/
def fifoFill : ℚ → List Player → ℚ × List Player
  | remaining, [] => (remaining, [])
  | remaining, p :: rest =>
    if remaining ≤ 0 then (remaining, p :: rest)
    else
      let needed := p.target - p.collected
      if needed ≤ 0 then
        let r := fifoFill remaining rest
        (r.1, p :: r.2)
      else if needed ≤ remaining then
        let r := fifoFill (remaining - needed) rest
        (r.1, { p with collected := p.collected + needed } :: r.2)
      else
        (0, { p with collected := p.collected + remaining } :: rest)

theorem fifoFill_length (pool : ℚ) (q : List Player) :
    ((fifoFill pool q).2).length = q.length := by
  induction q generalizing pool with
  | nil => simp [fifoFill]
  | cons p rest ih =>
    simp only [fifoFill]
    split
    · rfl
    · split
      · simpa using ih pool
      · split
        · simpa using ih _
        · rfl

theorem fifoFill_nonpos (pool : ℚ) (q : List Player) (h : pool ≤ 0) :
    fifoFill pool q = (pool, q) := by
  cases q with
  | nil => simp [fifoFill]
  | cons p rest => simp [fifoFill, h]

theorem fifoFill_cons_skip (pool : ℚ) (p : Player) (rest : List Player)
    (h0 : ¬ pool ≤ 0) (hsk : p.target - p.collected ≤ 0) :
    fifoFill pool (p :: rest) =
      ((fifoFill pool rest).1, p :: (fifoFill pool rest).2) := by
  simp [fifoFill, h0, hsk]

theorem fifoFill_cons_full (pool : ℚ) (p : Player) (rest : List Player)
    (h0 : ¬ pool ≤ 0) (hne : ¬ p.target - p.collected ≤ 0)
    (hfull : p.target - p.collected ≤ pool) :
    fifoFill pool (p :: rest) =
      ((fifoFill (pool - (p.target - p.collected)) rest).1,
        { p with collected := p.collected + (p.target - p.collected) } ::
          (fifoFill (pool - (p.target - p.collected)) rest).2) := by
  simp [fifoFill, h0, hne, hfull]

theorem fifoFill_cons_stop (pool : ℚ) (p : Player) (rest : List Player)
    (h0 : ¬ pool ≤ 0) (hne : ¬ p.target - p.collected ≤ 0)
    (hpart : ¬ p.target - p.collected ≤ pool) :
    fifoFill pool (p :: rest) =
      (0, { p with collected := p.collected + pool } :: rest) := by
  simp [fifoFill, h0, hne, hpart]

/-- C1: FIFO head-fill precedence.  In the head-pool distribution loop
(used verbatim both by the per-deposit head-fill, step 7 of
processDeposit, and by the daily drip, triggerDailyDrip), for any two
positions A at index i and B at index j with i < j, both with positive
remaining need target - collected, and any pool > 0: if B's collected
changes at all, then A's remaining need has been fully satisfied
(A ends with collected = target). -/
theorem fifoFill_fifo_precedence (pool : ℚ) (q : List Player) (i j : ℕ)
    (hij : i < j) (hpool : 0 < pool)
    (pA pB pB2 : Player)
    (hgi : q[i]? = some pA) (hgj : q[j]? = some pB)
    (hA : 0 < pA.target - pA.collected) (hB : 0 < pB.target - pB.collected)
    (hgj2 : ((fifoFill pool q).2)[j]? = some pB2)
    (hchanged : pB2.collected ≠ pB.collected) :
    ((fifoFill pool q).2)[i]? = some { pA with collected := pA.target } := by
  induction q generalizing pool i j with
  | nil => simp at hgj
  | cons p rest ih =>
    obtain ⟨m, rfl⟩ : ∃ m, j = m + 1 := ⟨j - 1, by omega⟩
    rw [List.getElem?_cons_succ] at hgj
    have hnotle : ¬ pool ≤ 0 := by linarith
    cases i with
    | zero =>
      rw [List.getElem?_cons_zero, Option.some_inj] at hgi
      subst hgi
      have hne : ¬ p.target - p.collected ≤ 0 := by linarith
      by_cases hfull : p.target - p.collected ≤ pool
      · rw [fifoFill_cons_full pool p rest hnotle hne hfull]
        rw [fifoFill_cons_full pool p rest hnotle hne hfull] at hgj2
        rw [List.getElem?_cons_zero, Option.some_inj]
        congr 1
        ring
      · rw [fifoFill_cons_stop pool p rest hnotle hne hfull] at hgj2
        rw [List.getElem?_cons_succ, hgj, Option.some_inj] at hgj2
        exact absurd (congrArg Player.collected hgj2).symm hchanged
    | succ k =>
      rw [List.getElem?_cons_succ] at hgi
      have hkm : k < m := by omega
      by_cases hskip : p.target - p.collected ≤ 0
      · rw [fifoFill_cons_skip pool p rest hnotle hskip] at hgj2 ⊢
        rw [List.getElem?_cons_succ] at hgj2 ⊢
        exact ih pool k m hkm hpool hgi hgj hgj2
      · by_cases hfull : p.target - p.collected ≤ pool
        · rw [fifoFill_cons_full pool p rest hnotle hskip hfull] at hgj2 ⊢
          rw [List.getElem?_cons_succ] at hgj2 ⊢
          by_cases hrem : 0 < pool - (p.target - p.collected)
          · exact ih _ k m hkm hrem hgi hgj hgj2
          · rw [fifoFill_nonpos _ _ (by linarith)] at hgj2
            rw [hgj, Option.some_inj] at hgj2
            exact absurd (congrArg Player.collected hgj2).symm hchanged
        · rw [fifoFill_cons_stop pool p rest hnotle hskip hfull] at hgj2
          rw [List.getElem?_cons_succ, hgj, Option.some_inj] at hgj2
          exact absurd (congrArg Player.collected hgj2).symm hchanged

/-- A concrete position used in witnesses: user n, deposit d, target t,
collected c. -/
def mkUserPos (n : ℕ) (d t c : ℚ) : Player :=
  ⟨.user n, d, t, c, 0, 0, false, 2, false, false⟩

/-- Witness for fifoFill_fifo_precedence: pool 5, queue of A (need 3)
and B (need 4); B ends partially filled at 2, so the theorem forces A
to end exactly at its target 3. -/
theorem fifoFill_fifo_precedence_witness :
    ((fifoFill 5 [mkUserPos 0 1 3 0, mkUserPos 1 1 4 0]).2)[0]? =
      some (mkUserPos 0 1 3 3) :=
  fifoFill_fifo_precedence 5 [mkUserPos 0 1 3 0, mkUserPos 1 1 4 0] 0 1
    (by norm_num) (by norm_num)
    (mkUserPos 0 1 3 0) (mkUserPos 1 1 4 0) (mkUserPos 1 1 4 2)
    (by norm_num [mkUserPos]) (by norm_num [mkUserPos])
    (by norm_num [mkUserPos]) (by norm_num [mkUserPos])
    (by norm_num [fifoFill, mkUserPos]) (by norm_num [mkUserPos])

/-- Whether an id is a bot id (the source tests
id.startsWith JACKPOT_BOT or id.startsWith TAX_BOT). -/
def isBotId : PlayerId → Bool
  | .jackpotBot _ => true
  | .taxBot _ => true
  | _ => false

/-- The candidate filter of triggerGuillotine: not yet slashed, not a
bot, not the protocol seed, and deposit strictly above the configured
whale threshold. -/
def guillotineEligible (cfg : SimulationConfig) (p : Player) : Bool :=
  !p.slashed && !isBotId p.id && !(p.id == PlayerId.seed) &&
    decide (cfg.guillotineThreshold < p.deposit)

/-- The slash applied to a guillotine victim: target becomes
target * (1 - guillotineStrength) and the slashed flag is set. -/
def slashPlayer (cfg : SimulationConfig) (p : Player) : Player :=
  { p with target := p.target * (1 - cfg.guillotineStrength), slashed := true }

/-- Pair each queue element with its index (starting at i), so that
in-place mutation of victims can be modelled positionally. -/
def withIndex (i : ℕ) : List Player → List (ℕ × Player)
  | [] => []
  | p :: rest => (i, p) :: withIndex (i + 1) rest

/-- Remaining liability target - collected of an indexed position. -/
def posNeed (ip : ℕ × Player) : ℚ := ip.2.target - ip.2.collected

/-- Stable insertion step for descending sort by remaining liability. -/
def insertByNeedDesc (x : ℕ × Player) : List (ℕ × Player) → List (ℕ × Player)
  | [] => [x]
  | y :: ys => if posNeed y ≤ posNeed x then x :: y :: ys else y :: insertByNeedDesc x ys

/-- The stable descending sort by remaining liability used on the
guillotine candidates (the source uses the stable Array.prototype.sort
with comparator (b.target - b.collected) - (a.target - a.collected)). -/
def sortByNeedDesc : List (ℕ × Player) → List (ℕ × Player)
  | [] => []
  | x :: xs => insertByNeedDesc x (sortByNeedDesc xs)

/-- The guillotine candidate pool: eligible positions, stably sorted by
descending remaining liability, capped to the top 30. -/
def guillotineCandidates (cfg : SimulationConfig) (q : List Player) :
    List (ℕ × Player) :=
  (sortByNeedDesc ((withIndex 0 q).filter fun ip => guillotineEligible cfg ip.2)).take 30

/-- The victim-selection loop: up to k random picks without replacement
from the candidate pool (the source picks Math.floor(Math.random() *
pool.length) and splices the pick out; draws k is the raw random number
of iteration k, taken modulo the current pool length). -/
def pickVictims (draws : ℕ → ℕ) : ℕ → List (ℕ × Player) → List (ℕ × Player)
  | 0, _ => []
  | _ + 1, [] => []
  | k + 1, x :: xs =>
    (x :: xs).get ⟨draws k % (x :: xs).length, Nat.mod_lt _ (Nat.succ_pos _)⟩ ::
      pickVictims draws k ((x :: xs).eraseIdx (draws k % (x :: xs).length))

/-- Apply the slash to the queue members whose index is in vs
(modelling the in-place mutation of the selected victim objects). -/
def markVictims (cfg : SimulationConfig) (vs : List ℕ) : ℕ → List Player → List Player
  | _, [] => []
  | i, p :: rest =>
    (if vs.contains i then slashPlayer cfg p else p) :: markVictims cfg vs (i + 1) rest

/-- triggerGuillotine of src/App.tsx, acting on the queue. -/
def triggerGuillotine (cfg : SimulationConfig) (draws : ℕ → ℕ)
    (q : List Player) : List Player :=
  if q.length < 5 then q
  else
    let candidates := guillotineCandidates cfg q
    if candidates.length = 0 then q
    else markVictims cfg ((pickVictims draws 10 candidates).map Prod.fst) 0 q

/-- triggerDailyDrip of src/App.tsx: skip when the reserve is at most 1
or the queue is empty; otherwise remove dailyDripRate of the reserve
and run the FIFO head-fill with it (any leftover of the fill is not
returned to the reserve). -/
def triggerDailyDrip (s : EngineState) : EngineState :=
  if s.protocolBalance ≤ 1 ∨ s.queue.length = 0 then s
  else
    { s with
      protocolBalance := s.protocolBalance - s.protocolBalance * s.config.dailyDripRate,
      queue := (fifoFill (s.protocolBalance * s.config.dailyDripRate) s.queue).2 }

/-- The retirement test of the cleanup sweep: collected ≥ target - 0.01. -/
def retireReady (p : Player) : Bool := decide (p.target - 1/100 ≤ p.collected)

/-- The fastFilled update applied to positions kept by the sweep (note
that on ℕ the truncated subtraction agrees with the JavaScript signed
test currentRound - entryRound < 10 in all cases). -/
def touchFast (round : ℕ) (p : Player) : Player :=
  if round - p.entryRound < 10 then { p with fastFilled := true } else p

/-- The credit a retiring position sends to the protocol balance.  The
source clamps collected := target first, so collected = target and
profit = target - deposit at this point: the seed returns its whole
collected amount, a tax bot returns its profit, and a tax-targeted user
with positive profit pays profit * winnersTaxRate. -/
def sweepProtocolDelta (cfg : SimulationConfig) (p : Player) : ℚ :=
  match p.id with
  | .seed => p.target
  | .taxBot _ => p.target - p.deposit
  | .jackpotBot _ => 0
  | .user _ =>
    if p.isTaxTarget then
      if 0 < p.target - p.deposit then (p.target - p.deposit) * cfg.winnersTaxRate else 0
    else 0

/-- The credit a retiring position sends to the jackpot balance: a
jackpot bot sends its profit target - deposit. -/
def sweepJackpotDelta (p : Player) : ℚ :=
  match p.id with
  | .jackpotBot _ => p.target - p.deposit
  | _ => 0

/-- Result of the cleanup sweep: the surviving queue, the retired
positions (collected clamped to target), and the credits accumulated
into the protocol and jackpot balances. -/
structure SweepResult where
  kept : List Player
  retired : List Player
  dProtocol : ℚ
  dJackpot : ℚ
deriving DecidableEq

/-- Step 9 of processDeposit (the cleanup sweep): positions with
collected ≥ target - 0.01 are removed with collected set to exactly
target and their exit credits accumulated; every other position stays,
with its fastFilled flag updated. -/
def cleanupSweep (cfg : SimulationConfig) (round : ℕ) : List Player → SweepResult
  | [] => ⟨[], [], 0, 0⟩
  | p :: rest =>
    let r := cleanupSweep cfg round rest
    if retireReady p then
      ⟨r.kept, { p with collected := p.target } :: r.retired,
        sweepProtocolDelta cfg p + r.dProtocol, sweepJackpotDelta p + r.dJackpot⟩
    else
      ⟨touchFast round p :: r.kept, r.retired, r.dProtocol, r.dJackpot⟩

/-- injectBot of src/App.tsx: the synthesized bot position (deposit the
configured amount, target exactly 2x, id suffixed with the current
historyCount). -/
def mkBot (isJackpot : Bool) (cfg : SimulationConfig)
    (historyCount round now : ℕ) : Player :=
  { id := if isJackpot then .jackpotBot historyCount else .taxBot historyCount,
    deposit := if isJackpot then cfg.jackpotAmount else cfg.taxBotAmount,
    target := (if isJackpot then cfg.jackpotAmount else cfg.taxBotAmount) * 2,
    collected := 0, entryRound := round, timestamp := now, slashed := false,
    multiplier := 2, isTaxTarget := false, fastFilled := false }

/-- Step 3 of processDeposit: the effective multiplier, together with
the updated stored currentRandomMultiplier.  r is the Math.random draw
used when a random-decay redraw fires. -/
def computeEffectiveMultiplier (ctl : Controls) (cfg : SimulationConfig) (r : ℚ)
    (historyCount qlen : ℕ) (crm : ℚ) (isSystem : Bool) : ℚ × ℚ :=
  if cfg.randomDecayEnabled = true ∧ isSystem = false then
    let totalUsers := historyCount + qlen
    let c1 :=
      if 0 < totalUsers ∧ totalUsers % cfg.randomDecayFrequency = 0 then
        cfg.randomDecayMin + r * (cfg.randomDecayMax - cfg.randomDecayMin)
      else crm
    let c2 := if c1 = 0 then ctl.multiplier else c1
    (c2, c2)
  else if ctl.dynamicDecayEnabled = true ∧ isSystem = false then
    let decayFactor := ((qlen / 10 : ℕ) : ℚ) * cfg.decayRate
    let maxReduction := ctl.multiplier * cfg.decayMaxPercent
    let minReduction := ctl.multiplier * cfg.decayMinPercent
    let red1 := if maxReduction < decayFactor then maxReduction else decayFactor
    let red2 := if red1 < minReduction ∧ 10 < qlen then minReduction else red1
    (ctl.multiplier - red2, crm)
  else (ctl.multiplier, crm)

/-- Step 5 of processDeposit: the new position (system deposits reuse
the PROTOCOL_SEED id, users get a fresh uuid modelled by uid). -/
def newPlayerOf (isSystem : Bool) (uid now : ℕ) (amount effMult : ℚ)
    (round : ℕ) (isTax : Bool) : Player :=
  { id := if isSystem then .seed else .user uid, deposit := amount,
    target := amount * effMult, collected := 0, entryRound := round,
    timestamp := now, slashed := false, multiplier := effMult,
    isTaxTarget := isTax, fastFilled := false }

/-- Step 6 of processDeposit: if the yield pool is positive and the
queue nonempty, add yieldPool / queue.length to every queue member's
collected, with no cap at the member's target. -/
def yieldPhase (yieldPool : ℚ) (q : List Player) : List Player :=
  if 0 < yieldPool ∧ 0 < q.length then
    q.map fun p => { p with collected := p.collected + yieldPool / (q.length : ℚ) }
  else q

/-- The timed-events prologue of processDeposit: increment tickCount,
then run the guillotine when enabled and due, then the daily drip when
due. -/
def afterTimers (ctl : Controls) (rnd : RandomDraws) (s : EngineState) : EngineState :=
  let tick := s.tickCount + 1
  let s1 : EngineState := { s with tickCount := tick }
  let s2 :=
    if ctl.guillotineEnabled ∧ tick % s.config.guillotineInterval = 0 then
      { s1 with queue := triggerGuillotine s.config rnd.slash s.queue }
    else s1
  if tick % DAILY_DRIP_INTERVAL = 0 then triggerDailyDrip s2 else s2

/-- Steps 1-10 of processDeposit after the timed events: fee, pools,
multiplier, new position, yield split, FIFO head-fill (leftover
dropped), push, bot injections, cleanup sweep, round increment, chart. -/
def depositCore (ctl : Controls) (rnd : RandomDraws) (now uid : ℕ)
    (amount : ℚ) (isSystem : Bool) (s : EngineState) : EngineState :=
  let cfg := s.config
  let actualFee := if isSystem then 0 else max 1 (amount * cfg.feePercent)
  let netAmount := amount - actualFee
  let bal2 := s.protocolBalance + actualFee
  let totalDep := s.totalDeposited + amount
  let headPool :=
    if ctl.strategy = DistributionStrategy.COMMUNITY_YIELD then netAmount * (4/5) else netAmount
  let yieldPool :=
    if ctl.strategy = DistributionStrategy.COMMUNITY_YIELD then netAmount * (1/5) else 0
  let em := computeEffectiveMultiplier ctl cfg rnd.mult s.historyCount
    s.queue.length s.currentRandomMultiplier isSystem
  let currentTotalUsers := s.historyCount + s.queue.length + 1
  let isTax := ctl.winnersTaxEnabled && !isSystem &&
    decide (currentTotalUsers % cfg.winnersTaxFrequency = 0)
  let np := newPlayerOf isSystem uid now amount em.1 s.currentRound isTax
  let q2 := yieldPhase yieldPool s.queue
  let q3 := (fifoFill headPool q2).2
  let q4 := q3 ++ [np]
  let totalUsers := s.historyCount + q4.length
  let jackpotFires := 0 < totalUsers ∧ totalUsers % cfg.jackpotFrequency = 0
  let q5 := if jackpotFires then q4 ++ [mkBot true cfg s.historyCount s.currentRound now] else q4
  let td1 := if jackpotFires then totalDep + cfg.jackpotAmount else totalDep
  let taxFires := cfg.taxBotEnabled = true ∧ 0 < totalUsers ∧ totalUsers % cfg.taxBotFrequency = 0
  let q6 := if taxFires then q5 ++ [mkBot false cfg s.historyCount s.currentRound now] else q5
  let td2 := if taxFires then td1 + cfg.taxBotAmount else td1
  let sw := cleanupSweep cfg s.currentRound q6
  let liability := (sw.kept.map fun p => p.target - p.collected).sum
  let cd1 := s.chartData ++ [⟨td2, sw.kept.length, liability⟩]
  { queue := sw.kept,
    historyCount := s.historyCount + sw.retired.length,
    historySum := s.historySum + (sw.retired.map Player.target).sum,
    totalDeposited := td2,
    protocolBalance := bal2 + sw.dProtocol,
    jackpotBalance := s.jackpotBalance + sw.dJackpot,
    currentRound := s.currentRound + 1,
    chartData := if 100 < cd1.length then cd1.drop 1 else cd1,
    tickCount := s.tickCount,
    config := cfg,
    currentRandomMultiplier := em.2 }

/-- processDeposit of src/App.tsx: the timed-events prologue followed by
the deposit processing proper. -/
def processDeposit (ctl : Controls) (rnd : RandomDraws) (now uid : ℕ)
    (amount : ℚ) (isSystem : Bool) (s : EngineState) : EngineState :=
  depositCore ctl rnd now uid amount isSystem (afterTimers ctl rnd s)

/-- The initial PROTOCOL_SEED position of src/App.tsx. -/
def initialSeed : Player :=
  { id := .seed, deposit := 1000, target := 2000, collected := 0,
    entryRound := 1, timestamp := 0, slashed := false, multiplier := 2,
    isTaxTarget := false, fastFilled := false }

/-- The default SimulationConfig of src/App.tsx. -/
def defaultConfig : SimulationConfig :=
  { feePercent := 1/100, guillotineStrength := 1/5, guillotineThreshold := 900,
    guillotineInterval := 60, winnersTaxRate := 1/5, winnersTaxFrequency := 10,
    dailyDripRate := 1/10, decayRate := 1/20, decayMinPercent := 1/20,
    decayMaxPercent := 2/5, randomDecayEnabled := false, randomDecayMin := 6/5,
    randomDecayMax := 5/2, randomDecayFrequency := 10, initialReserve := 30000,
    taxBotEnabled := false, taxBotFrequency := 100, taxBotAmount := 500,
    jackpotFrequency := 1000, jackpotAmount := 1000 }

/-- The initial engine state of src/App.tsx. -/
def initialEngineState : EngineState :=
  { queue := [initialSeed], historyCount := 0, historySum := 0,
    totalDeposited := 1000, protocolBalance := 30000, jackpotBalance := 0,
    currentRound := 1, chartData := [], tickCount := 0,
    config := defaultConfig, currentRandomMultiplier := 2 }

/-- The default React control state of src/App.tsx. -/
def defaultControls : Controls :=
  { strategy := .STANDARD, multiplier := 2, guillotineEnabled := false,
    dynamicDecayEnabled := false, winnersTaxEnabled := false }

theorem touchFast_collected (round : ℕ) (p : Player) :
    (touchFast round p).collected = p.collected := by
  unfold touchFast; split <;> rfl

theorem touchFast_target (round : ℕ) (p : Player) :
    (touchFast round p).target = p.target := by
  unfold touchFast; split <;> rfl

theorem touchFast_slashed (round : ℕ) (p : Player) :
    (touchFast round p).slashed = p.slashed := by
  unfold touchFast; split <;> rfl

theorem retireReady_touchFast (round : ℕ) (p : Player) :
    retireReady (touchFast round p) = retireReady p := by
  unfold touchFast retireReady; split <;> rfl

theorem cleanupSweep_kept (cfg : SimulationConfig) (round : ℕ) (q : List Player) :
    (cleanupSweep cfg round q).kept =
      (q.filter fun p => !retireReady p).map (touchFast round) := by
  induction q with
  | nil => simp [cleanupSweep]
  | cons p rest ih =>
    by_cases h : retireReady p <;> simp [cleanupSweep, h, ih]

theorem cleanupSweep_retired (cfg : SimulationConfig) (round : ℕ) (q : List Player) :
    (cleanupSweep cfg round q).retired =
      (q.filter fun p => retireReady p).map fun p => { p with collected := p.target } := by
  induction q with
  | nil => simp [cleanupSweep]
  | cons p rest ih =>
    by_cases h : retireReady p <;> simp [cleanupSweep, h, ih]

theorem mem_kept_not_retireReady (cfg : SimulationConfig) (round : ℕ)
    (q : List Player) (p : Player) (hp : p ∈ (cleanupSweep cfg round q).kept) :
    retireReady p = false := by
  rw [cleanupSweep_kept] at hp
  obtain ⟨q0, hq0, rfl⟩ := List.mem_map.1 hp
  rw [retireReady_touchFast]
  simpa using List.of_mem_filter hq0

theorem processDeposit_queue_is_kept (ctl : Controls) (rnd : RandomDraws)
    (now uid : ℕ) (amount : ℚ) (isSystem : Bool) (s : EngineState) :
    ∃ cfg round q, (processDeposit ctl rnd now uid amount isSystem s).queue =
      (cleanupSweep cfg round q).kept :=
  ⟨_, _, _, rfl⟩

theorem processDeposit_keep (ctl : Controls) (rnd : RandomDraws)
    (now uid : ℕ) (amount : ℚ) (isSystem : Bool) (s : EngineState) (p : Player)
    (hp : p ∈ (processDeposit ctl rnd now uid amount isSystem s).queue) :
    retireReady p = false := by
  obtain ⟨cfg, round, q, h⟩ :=
    processDeposit_queue_is_kept ctl rnd now uid amount isSystem s
  rw [h] at hp
  exact mem_kept_not_retireReady _ _ _ _ hp

theorem strategy_if_standard {α : Sort _} (a b : α) :
    (if DistributionStrategy.STANDARD = DistributionStrategy.COMMUNITY_YIELD
      then a else b) = b := by
  rw [if_neg]
  intro h
  exact DistributionStrategy.noConfusion h

theorem strategy_if_community {α : Sort _} (a b : α) :
    (if DistributionStrategy.COMMUNITY_YIELD = DistributionStrategy.COMMUNITY_YIELD
      then a else b) = a := if_pos rfl

/-- A concrete run used by several witnesses: a 100 deposit into the
initial state, with base multiplier 2 and a 1 percent fee (the fee is
max 1 (100 * 1/100) = 1, net 99 to the seed, new position target 200). -/
theorem runA_eval :
    processDeposit defaultControls ⟨0, fun _ => 0⟩ 0 7 100 false initialEngineState =
    { queue := [{ initialSeed with collected := 99, fastFilled := true },
                { id := .user 7, deposit := 100, target := 200, collected := 0,
                  entryRound := 1, timestamp := 0, slashed := false, multiplier := 2,
                  isTaxTarget := false, fastFilled := true }],
      historyCount := 0, historySum := 0, totalDeposited := 1100,
      protocolBalance := 30001, jackpotBalance := 0, currentRound := 2,
      chartData := [⟨1100, 2, 2101⟩], tickCount := 1, config := defaultConfig,
      currentRandomMultiplier := 2 } := by
  norm_num [processDeposit, depositCore, afterTimers, triggerDailyDrip,
    triggerGuillotine, yieldPhase, fifoFill, cleanupSweep,
    computeEffectiveMultiplier, newPlayerOf, mkBot, touchFast, retireReady,
    sweepProtocolDelta, sweepJackpotDelta, initialEngineState, defaultConfig,
    defaultControls, initialSeed, DAILY_DRIP_INTERVAL, strategy_if_standard]

/-- C3: Retirement correctness.  The cleanup sweep keeps exactly the
positions with collected < target - 0.01 (so removal happens iff
collected ≥ target - 0.01); each removed position is recorded with its
collected set to exactly target; consequently, since every position in
the active queue after any processDeposit fails the retirement test
while a removed position (collected = target) always passes it, a
removed position never reappears in the active queue in any later
state. -/
theorem retirement_correct :
    (∀ (cfg : SimulationConfig) (round : ℕ) (q : List Player),
        (cleanupSweep cfg round q).kept =
          (q.filter fun p => !retireReady p).map (touchFast round)) ∧
    (∀ (cfg : SimulationConfig) (round : ℕ) (q : List Player),
        (cleanupSweep cfg round q).retired =
          (q.filter fun p => retireReady p).map fun p => { p with collected := p.target }) ∧
    (∀ (cfg : SimulationConfig) (round : ℕ) (q : List Player) (p : Player),
        p ∈ (cleanupSweep cfg round q).retired → p.collected = p.target) ∧
    (∀ (ctl : Controls) (rnd : RandomDraws) (now uid : ℕ) (amount : ℚ)
        (isSystem : Bool) (s : EngineState) (p : Player),
        p ∈ (processDeposit ctl rnd now uid amount isSystem s).queue →
          retireReady p = false) ∧
    (∀ p : Player, p.collected = p.target → retireReady p = true) := by
  refine ⟨cleanupSweep_kept, cleanupSweep_retired, ?_, processDeposit_keep, ?_⟩
  · intro cfg round q p hp
    rw [cleanupSweep_retired] at hp
    obtain ⟨q0, _, rfl⟩ := List.mem_map.1 hp
    rfl
  · intro p h
    simp only [retireReady, h, decide_eq_true_eq]
    linarith

/-- Witness for retirement_correct: in the sweep of a fully-collected
seed, the retired record satisfies collected = target; and the seed
after the concrete 100 deposit (collected 99 of 2000) is kept and fails
the retirement test. -/
theorem retirement_correct_witness :
    ({ initialSeed with collected := 2000 } : Player).collected =
        ({ initialSeed with collected := 2000 } : Player).target ∧
    retireReady { initialSeed with collected := 99, fastFilled := true } = false := by
  constructor
  · exact retirement_correct.2.2.1 defaultConfig 1 [{ initialSeed with collected := 2000 }]
      { initialSeed with collected := 2000 }
      (by norm_num [cleanupSweep, retireReady, initialSeed])
  · exact retirement_correct.2.2.2.1 defaultControls ⟨0, fun _ => 0⟩ 0 7 100 false
      initialEngineState _ (by rw [runA_eval]; simp)

/-- C2 counterexample: the COMMUNITY_YIELD pre-split of processDeposit
(step 6, yieldPhase) does not cap a recipient's share at
max(0, target - collected): with one queue position of target 10 and
collected 9 and a 101 deposit at 0 percent fee (actual fee max 1 0 = 1,
net 100, yield pool 20), the position's collected transiently becomes
29, which exceeds its target 10, and no remainder is carried back. -/
theorem yield_uncapped_cex :
    (yieldPhase ((101 - max 1 (101 * (0:ℚ))) * (1/5)) [mkUserPos 0 10 10 9]).map
        Player.collected = [29] ∧
    (mkUserPos 0 10 10 9).target = 10 ∧ ¬ ((29:ℚ) ≤ 10) := by
  norm_num [yieldPhase, mkUserPos]

/-- C2 amended: the invariant collected ≤ target does hold for every
active position at the end of every complete deposit operation (the
cleanup sweep removes any position with collected ≥ target - 0.01),
but it is not maintained transiently inside the operation: the
COMMUNITY_YIELD pre-split is uncapped and carries no remainder back to
the head pool (see the counterexample). -/
theorem processDeposit_collected_le_target (ctl : Controls) (rnd : RandomDraws)
    (now uid : ℕ) (amount : ℚ) (isSystem : Bool) (s : EngineState) (p : Player)
    (hp : p ∈ (processDeposit ctl rnd now uid amount isSystem s).queue) :
    p.collected ≤ p.target := by
  have h := processDeposit_keep ctl rnd now uid amount isSystem s p hp
  simp only [retireReady, decide_eq_false_iff_not, not_le] at h
  linarith

/-- Witness for processDeposit_collected_le_target at the concrete 100
deposit into the initial state. -/
theorem processDeposit_collected_le_target_witness :
    ({ initialSeed with collected := 99, fastFilled := true } : Player).collected ≤
      ({ initialSeed with collected := 99, fastFilled := true } : Player).target :=
  processDeposit_collected_le_target defaultControls ⟨0, fun _ => 0⟩ 0 7 100 false
    initialEngineState _ (by rw [runA_eval]; simp)

/-- Sum of collected over a queue. -/
def sumCollected (q : List Player) : ℚ := (q.map Player.collected).sum

theorem sumCollected_nil : sumCollected [] = 0 := rfl

theorem sumCollected_cons (p : Player) (q : List Player) :
    sumCollected (p :: q) = p.collected + sumCollected q := by
  simp [sumCollected]

theorem sumCollected_append (q r : List Player) :
    sumCollected (q ++ r) = sumCollected q + sumCollected r := by
  simp [sumCollected]

/-- The head-fill conserves the pool: leftover plus what was added to
the queue members equals the incoming pool. -/
theorem fifoFill_sum (pool : ℚ) (q : List Player) :
    (fifoFill pool q).1 + sumCollected (fifoFill pool q).2 = pool + sumCollected q := by
  induction q generalizing pool with
  | nil => simp [fifoFill]
  | cons p rest ih =>
    by_cases h0 : pool ≤ 0
    · rw [fifoFill_nonpos _ _ h0]
    · by_cases hsk : p.target - p.collected ≤ 0
      · rw [fifoFill_cons_skip _ _ _ h0 hsk]
        have := ih pool
        simp only [sumCollected_cons]
        linarith
      · by_cases hfull : p.target - p.collected ≤ pool
        · rw [fifoFill_cons_full _ _ _ h0 hsk hfull]
          have := ih (pool - (p.target - p.collected))
          simp only [sumCollected_cons]
          linarith
        · rw [fifoFill_cons_stop _ _ _ h0 hsk hfull]
          simp only [sumCollected_cons]
          ring

/-- When nothing in the queue is ready to retire, the sweep keeps
everything (with the fastFilled update) and credits nothing. -/
theorem cleanupSweep_no_retire (cfg : SimulationConfig) (round : ℕ)
    (q : List Player) (h : ∀ p ∈ q, retireReady p = false) :
    cleanupSweep cfg round q = ⟨q.map (touchFast round), [], 0, 0⟩ := by
  induction q with
  | nil => rfl
  | cons p rest ih =>
    have hp : retireReady p = false := h p (List.mem_cons_self p rest)
    have hrest := ih fun p2 hp2 => h p2 (List.mem_cons_of_mem p hp2)
    simp [cleanupSweep, hp, hrest]

theorem afterTimers_tickCount (ctl : Controls) (rnd : RandomDraws) (s : EngineState) :
    (afterTimers ctl rnd s).tickCount = s.tickCount + 1 := by
  simp only [afterTimers, triggerDailyDrip]
  split_ifs <;> rfl

theorem afterTimers_currentRound (ctl : Controls) (rnd : RandomDraws) (s : EngineState) :
    (afterTimers ctl rnd s).currentRound = s.currentRound := by
  simp only [afterTimers, triggerDailyDrip]
  split_ifs <;> rfl

theorem afterTimers_totalDeposited (ctl : Controls) (rnd : RandomDraws) (s : EngineState) :
    (afterTimers ctl rnd s).totalDeposited = s.totalDeposited := by
  simp only [afterTimers, triggerDailyDrip]
  split_ifs <;> rfl

theorem afterTimers_historyCount (ctl : Controls) (rnd : RandomDraws) (s : EngineState) :
    (afterTimers ctl rnd s).historyCount = s.historyCount := by
  simp only [afterTimers, triggerDailyDrip]
  split_ifs <;> rfl

theorem afterTimers_historySum (ctl : Controls) (rnd : RandomDraws) (s : EngineState) :
    (afterTimers ctl rnd s).historySum = s.historySum := by
  simp only [afterTimers, triggerDailyDrip]
  split_ifs <;> rfl

theorem afterTimers_config (ctl : Controls) (rnd : RandomDraws) (s : EngineState) :
    (afterTimers ctl rnd s).config = s.config := by
  simp only [afterTimers, triggerDailyDrip]
  split_ifs <;> rfl

theorem afterTimers_jackpotBalance (ctl : Controls) (rnd : RandomDraws) (s : EngineState) :
    (afterTimers ctl rnd s).jackpotBalance = s.jackpotBalance := by
  simp only [afterTimers, triggerDailyDrip]
  split_ifs <;> rfl

theorem afterTimers_currentRandomMultiplier (ctl : Controls) (rnd : RandomDraws)
    (s : EngineState) :
    (afterTimers ctl rnd s).currentRandomMultiplier = s.currentRandomMultiplier := by
  simp only [afterTimers, triggerDailyDrip]
  split_ifs <;> rfl

/-- The queue of depositCore just before the cleanup sweep (steps 1-8
plus the bot injections), exposed as a named stage so that theorems can
quantify over it.  depositCore_queue below checks definitionally that
depositCore sweeps exactly this queue. -/
def preSweepQueue (ctl : Controls) (rnd : RandomDraws) (now uid : ℕ)
    (amount : ℚ) (isSystem : Bool) (s : EngineState) : List Player :=
  let cfg := s.config
  let actualFee := if isSystem then 0 else max 1 (amount * cfg.feePercent)
  let netAmount := amount - actualFee
  let headPool :=
    if ctl.strategy = DistributionStrategy.COMMUNITY_YIELD then netAmount * (4/5) else netAmount
  let yieldPool :=
    if ctl.strategy = DistributionStrategy.COMMUNITY_YIELD then netAmount * (1/5) else 0
  let em := computeEffectiveMultiplier ctl cfg rnd.mult s.historyCount
    s.queue.length s.currentRandomMultiplier isSystem
  let currentTotalUsers := s.historyCount + s.queue.length + 1
  let isTax := ctl.winnersTaxEnabled && !isSystem &&
    decide (currentTotalUsers % cfg.winnersTaxFrequency = 0)
  let np := newPlayerOf isSystem uid now amount em.1 s.currentRound isTax
  let q2 := yieldPhase yieldPool s.queue
  let q3 := (fifoFill headPool q2).2
  let q4 := q3 ++ [np]
  let totalUsers := s.historyCount + q4.length
  let jackpotFires := 0 < totalUsers ∧ totalUsers % cfg.jackpotFrequency = 0
  let q5 := if jackpotFires then q4 ++ [mkBot true cfg s.historyCount s.currentRound now] else q4
  let taxFires := cfg.taxBotEnabled = true ∧ 0 < totalUsers ∧ totalUsers % cfg.taxBotFrequency = 0
  if taxFires then q5 ++ [mkBot false cfg s.historyCount s.currentRound now] else q5

/-- The totalDeposited of depositCore (the amount plus any injected bot
deposits), exposed as a named stage. -/
def preSweepTotalDeposited (ctl : Controls) (rnd : RandomDraws) (now uid : ℕ)
    (amount : ℚ) (isSystem : Bool) (s : EngineState) : ℚ :=
  let cfg := s.config
  let totalDep := s.totalDeposited + amount
  let actualFee := if isSystem then 0 else max 1 (amount * cfg.feePercent)
  let netAmount := amount - actualFee
  let headPool :=
    if ctl.strategy = DistributionStrategy.COMMUNITY_YIELD then netAmount * (4/5) else netAmount
  let yieldPool :=
    if ctl.strategy = DistributionStrategy.COMMUNITY_YIELD then netAmount * (1/5) else 0
  let em := computeEffectiveMultiplier ctl cfg rnd.mult s.historyCount
    s.queue.length s.currentRandomMultiplier isSystem
  let currentTotalUsers := s.historyCount + s.queue.length + 1
  let isTax := ctl.winnersTaxEnabled && !isSystem &&
    decide (currentTotalUsers % cfg.winnersTaxFrequency = 0)
  let np := newPlayerOf isSystem uid now amount em.1 s.currentRound isTax
  let q2 := yieldPhase yieldPool s.queue
  let q3 := (fifoFill headPool q2).2
  let q4 := q3 ++ [np]
  let totalUsers := s.historyCount + q4.length
  let jackpotFires := 0 < totalUsers ∧ totalUsers % cfg.jackpotFrequency = 0
  let td1 := if jackpotFires then totalDep + cfg.jackpotAmount else totalDep
  let taxFires := cfg.taxBotEnabled = true ∧ 0 < totalUsers ∧ totalUsers % cfg.taxBotFrequency = 0
  if taxFires then td1 + cfg.taxBotAmount else td1

theorem depositCore_queue (ctl : Controls) (rnd : RandomDraws) (now uid : ℕ)
    (amount : ℚ) (isSystem : Bool) (s : EngineState) :
    (depositCore ctl rnd now uid amount isSystem s).queue =
      (cleanupSweep s.config s.currentRound
        (preSweepQueue ctl rnd now uid amount isSystem s)).kept := rfl

theorem depositCore_retired_eq (ctl : Controls) (rnd : RandomDraws) (now uid : ℕ)
    (amount : ℚ) (isSystem : Bool) (s : EngineState) :
    (depositCore ctl rnd now uid amount isSystem s).historyCount =
      s.historyCount + (cleanupSweep s.config s.currentRound
        (preSweepQueue ctl rnd now uid amount isSystem s)).retired.length := rfl

theorem depositCore_historySum (ctl : Controls) (rnd : RandomDraws) (now uid : ℕ)
    (amount : ℚ) (isSystem : Bool) (s : EngineState) :
    (depositCore ctl rnd now uid amount isSystem s).historySum =
      s.historySum + ((cleanupSweep s.config s.currentRound
        (preSweepQueue ctl rnd now uid amount isSystem s)).retired.map Player.target).sum := rfl

theorem depositCore_protocolBalance (ctl : Controls) (rnd : RandomDraws) (now uid : ℕ)
    (amount : ℚ) (isSystem : Bool) (s : EngineState) :
    (depositCore ctl rnd now uid amount isSystem s).protocolBalance =
      s.protocolBalance + (if isSystem then 0 else max 1 (amount * s.config.feePercent)) +
        (cleanupSweep s.config s.currentRound
          (preSweepQueue ctl rnd now uid amount isSystem s)).dProtocol := rfl

theorem depositCore_jackpotBalance (ctl : Controls) (rnd : RandomDraws) (now uid : ℕ)
    (amount : ℚ) (isSystem : Bool) (s : EngineState) :
    (depositCore ctl rnd now uid amount isSystem s).jackpotBalance =
      s.jackpotBalance + (cleanupSweep s.config s.currentRound
        (preSweepQueue ctl rnd now uid amount isSystem s)).dJackpot := rfl

theorem depositCore_totalDeposited (ctl : Controls) (rnd : RandomDraws) (now uid : ℕ)
    (amount : ℚ) (isSystem : Bool) (s : EngineState) :
    (depositCore ctl rnd now uid amount isSystem s).totalDeposited =
      preSweepTotalDeposited ctl rnd now uid amount isSystem s := rfl

theorem depositCore_tickCount (ctl : Controls) (rnd : RandomDraws) (now uid : ℕ)
    (amount : ℚ) (isSystem : Bool) (s : EngineState) :
    (depositCore ctl rnd now uid amount isSystem s).tickCount = s.tickCount := rfl

theorem depositCore_currentRound (ctl : Controls) (rnd : RandomDraws) (now uid : ℕ)
    (amount : ℚ) (isSystem : Bool) (s : EngineState) :
    (depositCore ctl rnd now uid amount isSystem s).currentRound = s.currentRound + 1 := rfl

/-- C7 counterexample: processDeposit performs no validation, so a
negative amount (-5) mutates the engine state: the tick counter
advances, totalDeposited absorbs the negative amount, and the state is
not left unchanged. -/
theorem no_validation_cex :
    (processDeposit defaultControls ⟨0, fun _ => 0⟩ 0 7 (-5) false
        initialEngineState).tickCount = initialEngineState.tickCount + 1 ∧
    (processDeposit defaultControls ⟨0, fun _ => 0⟩ 0 7 (-5) false
        initialEngineState).totalDeposited = initialEngineState.totalDeposited + (-5) ∧
    processDeposit defaultControls ⟨0, fun _ => 0⟩ 0 7 (-5) false initialEngineState ≠
      initialEngineState := by
  refine ⟨?_, ?_, ?_⟩
  · rw [processDeposit, depositCore_tickCount, afterTimers_tickCount]
  · rw [processDeposit, depositCore_totalDeposited]
    norm_num [preSweepTotalDeposited, afterTimers, triggerDailyDrip,
      triggerGuillotine, yieldPhase, fifoFill, computeEffectiveMultiplier,
      newPlayerOf, initialEngineState, defaultConfig, defaultControls,
      initialSeed, DAILY_DRIP_INTERVAL, strategy_if_standard]
  · intro h
    have := congrArg EngineState.tickCount h
    rw [processDeposit, depositCore_tickCount, afterTimers_tickCount] at this
    simp [initialEngineState] at this

/-- C7 amended: invalid amounts are not rejected: there is no
validation in processDeposit at all, and every call - whatever the
amount, including amounts ≤ 0 - advances the tick counter and the round
counter, so the state is never left unchanged. -/
theorem processDeposit_never_noop (ctl : Controls) (rnd : RandomDraws)
    (now uid : ℕ) (amount : ℚ) (isSystem : Bool) (s : EngineState) :
    (processDeposit ctl rnd now uid amount isSystem s).tickCount = s.tickCount + 1 ∧
    (processDeposit ctl rnd now uid amount isSystem s).currentRound = s.currentRound + 1 ∧
    processDeposit ctl rnd now uid amount isSystem s ≠ s := by
  refine ⟨?_, ?_, ?_⟩
  · rw [processDeposit, depositCore_tickCount, afterTimers_tickCount]
  · rw [processDeposit, depositCore_currentRound, afterTimers_currentRound]
  · intro h
    have := congrArg EngineState.tickCount h
    rw [processDeposit, depositCore_tickCount, afterTimers_tickCount] at this
    omega

theorem afterTimers_protocolBalance_nodrip (ctl : Controls) (rnd : RandomDraws)
    (s : EngineState) (h : (s.tickCount + 1) % DAILY_DRIP_INTERVAL ≠ 0) :
    (afterTimers ctl rnd s).protocolBalance = s.protocolBalance := by
  simp only [afterTimers]
  rw [if_neg h]
  split_ifs <;> rfl

theorem yieldPhase_zero (q : List Player) : yieldPhase 0 q = q := by
  simp [yieldPhase]

theorem newPlayerOf_collected (isSystem : Bool) (uid now : ℕ) (amount effMult : ℚ)
    (round : ℕ) (isTax : Bool) :
    (newPlayerOf isSystem uid now amount effMult round isTax).collected = 0 := rfl

theorem mkBot_collected (isJackpot : Bool) (cfg : SimulationConfig)
    (historyCount round now : ℕ) :
    (mkBot isJackpot cfg historyCount round now).collected = 0 := rfl

/-- The pre-sweep queue of the concrete 100 deposit into the initial
state: the seed filled to 99 and the fresh user position. -/
theorem runA_preSweep_eval :
    preSweepQueue defaultControls ⟨0, fun _ => 0⟩ 0 7 100 false
        (afterTimers defaultControls ⟨0, fun _ => 0⟩ initialEngineState) =
      [{ initialSeed with collected := 99 },
       { id := .user 7, deposit := 100, target := 200, collected := 0,
         entryRound := 1, timestamp := 0, slashed := false, multiplier := 2,
         isTaxTarget := false, fastFilled := false }] := by
  norm_num [preSweepQueue, afterTimers, triggerDailyDrip, triggerGuillotine,
    yieldPhase, fifoFill, computeEffectiveMultiplier, newPlayerOf, mkBot,
    initialEngineState, defaultConfig, defaultControls, initialSeed,
    DAILY_DRIP_INTERVAL, strategy_if_standard]

/-- C5 counterexample: a 10 deposit at the configured 1 percent fee
credits the reserve with max(1, 0.1) = 1, not with 10 x 0.01 = 0.1, so
the reserve does not increase by exactly amount x feePercent. -/
theorem fee_exactness_cex :
    (processDeposit defaultControls ⟨0, fun _ => 0⟩ 0 7 10 false
        initialEngineState).protocolBalance = initialEngineState.protocolBalance + 1 ∧
    (1 : ℚ) ≠ 10 * defaultConfig.feePercent := by
  constructor
  · norm_num [processDeposit, depositCore, afterTimers, triggerDailyDrip,
      triggerGuillotine, yieldPhase, fifoFill, cleanupSweep,
      computeEffectiveMultiplier, newPlayerOf, mkBot, touchFast, retireReady,
      sweepProtocolDelta, sweepJackpotDelta, initialEngineState, defaultConfig,
      defaultControls, initialSeed, DAILY_DRIP_INTERVAL, strategy_if_standard]
  · norm_num [defaultConfig]

/-- C5 amended: for a non-system deposit of amount a with fee rate f,
the fee actually charged is max(1, a x f) - the source imposes a
minimum fee of 1 currency unit - and the reserve increases by exactly
that fee provided the daily drip does not fire this tick and no
position retires in this deposit's sweep (retirements add their own
exit credits); the net pool entering distribution (head pool plus
yield pool) is exactly a - max(1, a x f) under every strategy. -/
theorem fee_routing (ctl : Controls) (rnd : RandomDraws) (now uid : ℕ)
    (amount : ℚ) (s : EngineState)
    (hdrip : (s.tickCount + 1) % DAILY_DRIP_INTERVAL ≠ 0)
    (hnoret : ∀ p ∈ preSweepQueue ctl rnd now uid amount false (afterTimers ctl rnd s),
        retireReady p = false) :
    (processDeposit ctl rnd now uid amount false s).protocolBalance =
      s.protocolBalance + max 1 (amount * s.config.feePercent) ∧
    (if ctl.strategy = DistributionStrategy.COMMUNITY_YIELD
        then (amount - max 1 (amount * s.config.feePercent)) * (4/5)
        else amount - max 1 (amount * s.config.feePercent)) +
      (if ctl.strategy = DistributionStrategy.COMMUNITY_YIELD
        then (amount - max 1 (amount * s.config.feePercent)) * (1/5)
        else 0) =
      amount - max 1 (amount * s.config.feePercent) := by
  constructor
  · rw [processDeposit, depositCore_protocolBalance,
      cleanupSweep_no_retire _ _ _ hnoret,
      afterTimers_protocolBalance_nodrip ctl rnd s hdrip, afterTimers_config]
    simp
  · split_ifs <;> ring

/-- Witness for fee_routing: the 100 deposit into the initial state
increases the reserve by exactly max 1 (100 x 0.01) = 1. -/
theorem fee_routing_witness :
    (processDeposit defaultControls ⟨0, fun _ => 0⟩ 0 7 100 false
        initialEngineState).protocolBalance =
      initialEngineState.protocolBalance +
        max 1 (100 * initialEngineState.config.feePercent) :=
  (fee_routing defaultControls ⟨0, fun _ => 0⟩ 0 7 100 initialEngineState
    (by norm_num [initialEngineState, DAILY_DRIP_INTERVAL])
    (by
      intro p hp
      rw [runA_preSweep_eval] at hp
      simp only [List.mem_cons, List.not_mem_nil, or_false] at hp
      rcases hp with rfl | rfl <;> norm_num [retireReady, initialSeed])).1

/-- The state of the C6 scenario: one seed position of target 100 with
50 already collected (remaining need 50), fee rate set to 0 (the source
still charges the minimum fee of 1, so a 61 deposit nets 60). -/
def s6State : EngineState :=
  { initialEngineState with
    queue := [{ initialSeed with deposit := 50, target := 100, collected := 50 }],
    config := { defaultConfig with feePercent := 0 } }

/-- C6 counterexample: with remaining queue need 50 and head pool 60,
the head-fill leftover is 10, the seed retires and the queue keeps only
the new entrant - but the new entrant's collected is 0, not 10: the
excess is discarded, not credited to the newly created position. -/
theorem leftover_to_new_entrant_cex :
    (fifoFill (61 - max 1 (61 * (0:ℚ))) s6State.queue).1 = 10 ∧
    (processDeposit defaultControls ⟨0, fun _ => 0⟩ 0 7 61 false s6State).queue.map
        Player.id = [.user 7] ∧
    (processDeposit defaultControls ⟨0, fun _ => 0⟩ 0 7 61 false s6State).queue.map
        Player.collected = [0] := by
  refine ⟨?_, ?_, ?_⟩ <;>
    norm_num [processDeposit, depositCore, afterTimers, triggerDailyDrip,
      triggerGuillotine, yieldPhase, fifoFill, cleanupSweep,
      computeEffectiveMultiplier, newPlayerOf, mkBot, touchFast, retireReady,
      sweepProtocolDelta, sweepJackpotDelta, s6State, initialEngineState,
      defaultConfig, defaultControls, initialSeed, DAILY_DRIP_INTERVAL,
      strategy_if_standard]

/-- C6 amended: when the head pool exceeds the total remaining need of
the positions already in the queue, the excess is discarded, not
credited to the new entrant: outside COMMUNITY_YIELD the pre-sweep
queue's total collected grows by exactly net - leftover (the head-fill
leftover reaches nobody: the new position and any injected bots enter
with collected 0), and the deposit's final queue is the sweep of that
pre-sweep queue. -/
theorem head_leftover_discarded (ctl : Controls) (rnd : RandomDraws) (now uid : ℕ)
    (amount : ℚ) (isSystem : Bool) (s : EngineState)
    (hstrat : ctl.strategy ≠ DistributionStrategy.COMMUNITY_YIELD) :
    (processDeposit ctl rnd now uid amount isSystem s).queue =
      (cleanupSweep (afterTimers ctl rnd s).config (afterTimers ctl rnd s).currentRound
        (preSweepQueue ctl rnd now uid amount isSystem (afterTimers ctl rnd s))).kept ∧
    sumCollected (preSweepQueue ctl rnd now uid amount isSystem (afterTimers ctl rnd s)) =
      sumCollected (afterTimers ctl rnd s).queue +
        ((amount - (if isSystem then 0 else max 1 (amount * s.config.feePercent))) -
          (fifoFill (amount - (if isSystem then 0 else max 1 (amount * s.config.feePercent)))
            (afterTimers ctl rnd s).queue).1) := by
  constructor
  · rw [processDeposit, depositCore_queue]
  · have hcfg := afterTimers_config ctl rnd s
    simp only [preSweepQueue, if_neg hstrat, hcfg, yieldPhase_zero]
    generalize (if isSystem = true then (0:ℚ) else max 1 (amount * s.config.feePercent)) = fee
    have hsum := fifoFill_sum (amount - fee) (afterTimers ctl rnd s).queue
    split_ifs <;>
      simp only [sumCollected_append, sumCollected_cons, sumCollected_nil,
        newPlayerOf_collected, mkBot_collected] <;>
      linarith

/-- Witness for head_leftover_discarded at the concrete C6 scenario
(seed needing 50, head pool 60, leftover 10 discarded). -/
theorem head_leftover_discarded_witness :
    sumCollected (preSweepQueue defaultControls ⟨0, fun _ => 0⟩ 0 7 61 false
        (afterTimers defaultControls ⟨0, fun _ => 0⟩ s6State)) =
      sumCollected (afterTimers defaultControls ⟨0, fun _ => 0⟩ s6State).queue +
        ((61 - (if false then 0 else max 1 (61 * s6State.config.feePercent))) -
          (fifoFill (61 - (if false then 0 else max 1 (61 * s6State.config.feePercent)))
            (afterTimers defaultControls ⟨0, fun _ => 0⟩ s6State).queue).1) :=
  (head_leftover_discarded defaultControls ⟨0, fun _ => 0⟩ 0 7 61 false s6State
    (by simp [defaultControls])).2

/-- The state of the C8 counterexample: random decay enabled with
bounds [1.2, 1.5] and redraw frequency 10, fresh engine otherwise (the
stored currentRandomMultiplier is still the initial 2.0). -/
def s8State : EngineState :=
  { initialEngineState with
    config := { defaultConfig with randomDecayEnabled := true, randomDecayMax := 3/2 } }

/-- C8 counterexample: with random decay enabled and configured bounds
[1.2, 1.5], the first deposit (totalUsers = 1, so no redraw fires yet)
records the stored initial multiplier 2.0, which is outside
[randomDecayMin, randomDecayMax]. -/
theorem random_decay_out_of_range_cex :
    (processDeposit defaultControls ⟨0, fun _ => 0⟩ 0 7 100 false s8State).queue.map
        Player.multiplier = [2, 2] ∧
    s8State.config.randomDecayEnabled = true ∧
    ¬ ((2:ℚ) ≤ s8State.config.randomDecayMax) := by
  refine ⟨?_, rfl, ?_⟩
  · norm_num [processDeposit, depositCore, afterTimers, triggerDailyDrip,
      triggerGuillotine, yieldPhase, fifoFill, cleanupSweep,
      computeEffectiveMultiplier, newPlayerOf, mkBot, touchFast, retireReady,
      sweepProtocolDelta, sweepJackpotDelta, s8State, initialEngineState,
      defaultConfig, defaultControls, initialSeed, DAILY_DRIP_INTERVAL,
      strategy_if_standard]
  · norm_num [s8State, defaultConfig]

/-- C8 amended: under random decay, a deposit at which a redraw
actually fires (totalUsers > 0 and divisible by the redraw frequency)
gets a multiplier within [randomDecayMin, randomDecayMax], given a
draw in [0,1) and 0 < min ≤ max; deposits before the first redraw keep
the stored multiplier (initially 2.0), which may lie outside the
configured range.  Under linear decay (random off), for queue length
> 10 the reduction is within [multiplier x decayMinPercent,
multiplier x decayMaxPercent]; for queue length ≤ 10 the minimum
reduction bound is not enforced. -/
theorem multiplier_bounds (ctl : Controls) (cfg : SimulationConfig) (r : ℚ)
    (historyCount qlen : ℕ) (crm : ℚ) :
    (cfg.randomDecayEnabled = true → 0 ≤ r → r < 1 →
      0 < cfg.randomDecayMin → cfg.randomDecayMin ≤ cfg.randomDecayMax →
      0 < historyCount + qlen →
      (historyCount + qlen) % cfg.randomDecayFrequency = 0 →
      cfg.randomDecayMin ≤
          (computeEffectiveMultiplier ctl cfg r historyCount qlen crm false).1 ∧
        (computeEffectiveMultiplier ctl cfg r historyCount qlen crm false).1 ≤
          cfg.randomDecayMax) ∧
    (cfg.randomDecayEnabled = false → ctl.dynamicDecayEnabled = true →
      10 < qlen → 0 ≤ ctl.multiplier → 0 ≤ cfg.decayMinPercent →
      cfg.decayMinPercent ≤ cfg.decayMaxPercent →
      ctl.multiplier * cfg.decayMinPercent ≤
          ctl.multiplier -
            (computeEffectiveMultiplier ctl cfg r historyCount qlen crm false).1 ∧
        ctl.multiplier -
            (computeEffectiveMultiplier ctl cfg r historyCount qlen crm false).1 ≤
          ctl.multiplier * cfg.decayMaxPercent) := by
  constructor
  · intro hen hr0 hr1 hmin hminmax htu hmod
    have hrange : 0 ≤ cfg.randomDecayMax - cfg.randomDecayMin := by linarith
    have h1 : 0 ≤ r * (cfg.randomDecayMax - cfg.randomDecayMin) := mul_nonneg hr0 hrange
    have h2 : r * (cfg.randomDecayMax - cfg.randomDecayMin) ≤
        cfg.randomDecayMax - cfg.randomDecayMin := by nlinarith
    have hc1 : ¬ (cfg.randomDecayMin + r * (cfg.randomDecayMax - cfg.randomDecayMin) = 0) := by
      intro h0
      linarith
    simp only [computeEffectiveMultiplier, hen, htu, hmod, hc1]
    norm_num
    rw [if_neg hc1]
    constructor <;> linarith
  · intro hoff hdyn hq hm hminp hmm
    simp only [computeEffectiveMultiplier, hoff, hdyn, hq]
    norm_num
    have hmul := mul_le_mul_of_nonneg_left hmm hm
    split_ifs with h1 h2 h3
    · constructor <;> linarith
    · constructor <;> linarith
    · constructor <;> linarith
    · have hnl : ctl.multiplier * cfg.decayMinPercent ≤
          ((qlen / 10 : ℕ) : ℚ) * cfg.decayRate := not_lt.1 h3
      constructor <;> linarith

/-- Witness for multiplier_bounds: a redraw firing at totalUsers = 10
with draw 1/2 and bounds [1.2, 2.5] lands within the bounds. -/
theorem multiplier_bounds_witness :
    (6/5 : ℚ) ≤
        (computeEffectiveMultiplier defaultControls
          { defaultConfig with randomDecayEnabled := true } (1/2) 0 10 2 false).1 ∧
      (computeEffectiveMultiplier defaultControls
          { defaultConfig with randomDecayEnabled := true } (1/2) 0 10 2 false).1 ≤
        (5/2 : ℚ) :=
  (multiplier_bounds defaultControls { defaultConfig with randomDecayEnabled := true }
      (1/2) 0 10 2).1 rfl (by norm_num) (by norm_num)
    (by norm_num [defaultConfig]) (by norm_num [defaultConfig]) (by norm_num)
    (by norm_num [defaultConfig])

/-- Total fillable need of a queue: sum of max 0 (target - collected). -/
def posLiability (q : List Player) : ℚ :=
  (q.map fun p => max 0 (p.target - p.collected)).sum

/-- When the pool is nonnegative and does not exceed the queue's total
fillable need, the head-fill leaves no leftover. -/
theorem fifoFill_leftover_zero (pool : ℚ) (q : List Player)
    (h0 : 0 ≤ pool) (hle : pool ≤ posLiability q) : (fifoFill pool q).1 = 0 := by
  induction q generalizing pool with
  | nil =>
    simp only [posLiability, List.map_nil, List.sum_nil] at hle
    simp [fifoFill]
    linarith
  | cons p rest ih =>
    by_cases hz : pool ≤ 0
    · rw [fifoFill_nonpos _ _ hz]
      linarith
    · have hpl : posLiability (p :: rest) =
          max 0 (p.target - p.collected) + posLiability rest := by
        simp [posLiability]
      by_cases hsk : p.target - p.collected ≤ 0
      · rw [fifoFill_cons_skip _ _ _ hz hsk]
        have hmax : max 0 (p.target - p.collected) = 0 := max_eq_left hsk
        exact ih pool h0 (by rw [hpl, hmax] at hle; linarith)
      · have hmax : max 0 (p.target - p.collected) = p.target - p.collected :=
          max_eq_right (by linarith)
        by_cases hfull : p.target - p.collected ≤ pool
        · rw [fifoFill_cons_full _ _ _ hz hsk hfull]
          exact ih (pool - (p.target - p.collected)) (by linarith)
            (by rw [hpl, hmax] at hle; linarith)
        · rw [fifoFill_cons_stop _ _ _ hz hsk hfull]

theorem yieldPhase_length (yp : ℚ) (q : List Player) :
    (yieldPhase yp q).length = q.length := by
  unfold yieldPhase
  split <;> simp

theorem sumCollected_map_touch (round : ℕ) (q : List Player) :
    sumCollected (q.map (touchFast round)) = sumCollected q := by
  induction q with
  | nil => rfl
  | cons p rest ih =>
    simp only [List.map_cons, sumCollected_cons, touchFast_collected, ih]

/-- Outside COMMUNITY_YIELD, the pre-sweep queue's total collected is
the old total plus net minus the head-fill leftover (the new position
and any bots enter with collected 0). -/
theorem sumCollected_preSweepQueue (ctl : Controls) (rnd : RandomDraws)
    (now uid : ℕ) (amount : ℚ) (isSystem : Bool) (s : EngineState)
    (hstrat : ctl.strategy ≠ DistributionStrategy.COMMUNITY_YIELD) :
    sumCollected (preSweepQueue ctl rnd now uid amount isSystem s) =
      sumCollected s.queue +
        ((amount - (if isSystem then 0 else max 1 (amount * s.config.feePercent))) -
          (fifoFill (amount - (if isSystem then 0 else max 1 (amount * s.config.feePercent)))
            s.queue).1) := by
  simp only [preSweepQueue, if_neg hstrat, yieldPhase_zero]
  generalize (if isSystem = true then (0:ℚ) else max 1 (amount * s.config.feePercent)) = fee
  have hsum := fifoFill_sum (amount - fee) s.queue
  split_ifs <;>
    simp only [sumCollected_append, sumCollected_cons, sumCollected_nil,
      newPlayerOf_collected, mkBot_collected] <;>
    linarith

/-- When neither bot injection fires, totalDeposited grows by exactly
the deposit amount. -/
theorem preSweepTotalDeposited_nobot (ctl : Controls) (rnd : RandomDraws)
    (now uid : ℕ) (amount : ℚ) (isSystem : Bool) (s : EngineState)
    (h1 : ¬ (0 < s.historyCount + s.queue.length + 1 ∧
        (s.historyCount + s.queue.length + 1) % s.config.jackpotFrequency = 0))
    (h2 : s.config.taxBotEnabled = false) :
    preSweepTotalDeposited ctl rnd now uid amount isSystem s =
      s.totalDeposited + amount := by
  simp only [preSweepTotalDeposited, List.length_append, List.length_cons,
    List.length_nil, fifoFill_length, yieldPhase_length, h2, Bool.false_eq_true,
    false_and, if_false]
  have hassoc : s.historyCount + (s.queue.length + (0 + 1)) =
      s.historyCount + s.queue.length + 1 := by omega
  rw [hassoc, if_neg h1]

/-- With the guillotine disabled and no drip due, the timed-events
prologue only increments the tick counter. -/
theorem afterTimers_eq_of_idle (ctl : Controls) (rnd : RandomDraws) (s : EngineState)
    (hg : ctl.guillotineEnabled = false)
    (hdrip : (s.tickCount + 1) % DAILY_DRIP_INTERVAL ≠ 0) :
    afterTimers ctl rnd s = { s with tickCount := s.tickCount + 1 } := by
  simp only [afterTimers]
  rw [if_neg hdrip, if_neg (by simp [hg])]

/-- The total money the accounting can see: collected sitting in active
positions, the cumulative collected of retired positions (historySum),
and the reserve and jackpot balances. -/
def moneyOut (s : EngineState) : ℚ :=
  sumCollected s.queue + s.historySum + s.protocolBalance + s.jackpotBalance

/-- The state of the C4 counterexample: one position needing only 1
more unit, reserve 100, drip rate 10 percent. -/
def s4State : EngineState :=
  { initialEngineState with
    queue := [{ initialSeed with target := 2, collected := 1 }],
    protocolBalance := 100 }

/-- C4 counterexample: the daily drip removes 10 from the reserve but
the queue only absorbs 1; the leftover 9 is destroyed (totalDeposited
is unchanged and no balance receives it), so conservation of funds
fails on the daily drip. -/
theorem conservation_drip_cex :
    (triggerDailyDrip s4State).totalDeposited = s4State.totalDeposited ∧
    (triggerDailyDrip s4State).protocolBalance = s4State.protocolBalance - 10 ∧
    sumCollected (triggerDailyDrip s4State).queue = sumCollected s4State.queue + 1 ∧
    moneyOut (triggerDailyDrip s4State) = moneyOut s4State - 9 ∧
    (9:ℚ) ≠ 0 := by
  refine ⟨?_, ?_, ?_, ?_, by norm_num⟩ <;>
    norm_num [triggerDailyDrip, fifoFill, moneyOut, sumCollected, s4State,
      initialEngineState, initialSeed, defaultConfig]

/-- C4 amended: conservation does not hold in general - the daily drip
and the per-deposit head-fill destroy their leftover pool, the winners
tax and the seed's exit credit are minted into the reserve without a
matching deduction, and the retirement clamp can create up to 0.01 per
exit.  It does hold for a deposit that triggers no timed event, no bot
injection and no retirement and whose net pool does not exceed the
queue's remaining fillable need: then totalDeposited grows by exactly
the amount, and the amount splits exactly into the fee (to the
reserve) and the increase of collected across the queue, with the
jackpot balance untouched. -/
theorem conservation_restricted (ctl : Controls) (rnd : RandomDraws) (now uid : ℕ)
    (amount : ℚ) (s : EngineState)
    (hg : ctl.guillotineEnabled = false)
    (hdrip : (s.tickCount + 1) % DAILY_DRIP_INTERVAL ≠ 0)
    (hstrat : ctl.strategy ≠ DistributionStrategy.COMMUNITY_YIELD)
    (hpool : 0 ≤ amount - max 1 (amount * s.config.feePercent))
    (hneed : amount - max 1 (amount * s.config.feePercent) ≤ posLiability s.queue)
    (hnoret : ∀ p ∈ preSweepQueue ctl rnd now uid amount false (afterTimers ctl rnd s),
        retireReady p = false)
    (hnobot1 : ¬ (0 < s.historyCount + s.queue.length + 1 ∧
        (s.historyCount + s.queue.length + 1) % s.config.jackpotFrequency = 0))
    (hnobot2 : s.config.taxBotEnabled = false) :
    (processDeposit ctl rnd now uid amount false s).totalDeposited =
        s.totalDeposited + amount ∧
    moneyOut (processDeposit ctl rnd now uid amount false s) = moneyOut s + amount ∧
    (processDeposit ctl rnd now uid amount false s).jackpotBalance = s.jackpotBalance := by
  have hAT := afterTimers_eq_of_idle ctl rnd s hg hdrip
  rw [hAT] at hnoret
  have hsw := cleanupSweep_no_retire
    ({ s with tickCount := s.tickCount + 1 } : EngineState).config
    ({ s with tickCount := s.tickCount + 1 } : EngineState).currentRound
    (preSweepQueue ctl rnd now uid amount false { s with tickCount := s.tickCount + 1 })
    hnoret
  have hQ := sumCollected_preSweepQueue ctl rnd now uid amount false
    { s with tickCount := s.tickCount + 1 } hstrat
  have hL0 : (fifoFill (amount - max 1 (amount * s.config.feePercent)) s.queue).1 = 0 :=
    fifoFill_leftover_zero _ _ hpool hneed
  have hQ2 : sumCollected (preSweepQueue ctl rnd now uid amount false
      ({ s with tickCount := s.tickCount + 1 })) =
      sumCollected s.queue + (amount - max 1 (amount * s.config.feePercent)) := by
    simpa [hL0] using hQ
  refine ⟨?_, ?_, ?_⟩
  · simp only [processDeposit, hAT, depositCore_totalDeposited]
    rw [preSweepTotalDeposited_nobot ctl rnd now uid amount false
      ({ s with tickCount := s.tickCount + 1 }) hnobot1 hnobot2]
  · simp only [moneyOut, processDeposit, hAT, depositCore_queue, depositCore_historySum,
      depositCore_protocolBalance, depositCore_jackpotBalance, hsw,
      sumCollected_map_touch, List.map_nil, List.sum_nil, hQ2]
    simp
    ring
  · simp only [processDeposit, hAT, depositCore_jackpotBalance, hsw]
    simp

/-- Witness for conservation_restricted: the concrete 100 deposit into
the initial state (no events, no bots, no retirement, net 99 against
need 2000) conserves funds: totalDeposited and the visible money both
grow by exactly 100. -/
theorem conservation_restricted_witness :
    (processDeposit defaultControls ⟨0, fun _ => 0⟩ 0 7 100 false
        initialEngineState).totalDeposited = initialEngineState.totalDeposited + 100 ∧
    moneyOut (processDeposit defaultControls ⟨0, fun _ => 0⟩ 0 7 100 false
        initialEngineState) = moneyOut initialEngineState + 100 :=
  have h := conservation_restricted defaultControls ⟨0, fun _ => 0⟩ 0 7 100
    initialEngineState rfl
    (by norm_num [initialEngineState, DAILY_DRIP_INTERVAL])
    (fun hc => DistributionStrategy.noConfusion hc)
    (by norm_num [initialEngineState, defaultConfig])
    (by norm_num [initialEngineState, defaultConfig, posLiability, initialSeed])
    (by
      intro p hp
      rw [runA_preSweep_eval] at hp
      simp only [List.mem_cons, List.not_mem_nil, or_false] at hp
      rcases hp with rfl | rfl <;> norm_num [retireReady, initialSeed])
    (by norm_num [initialEngineState, defaultConfig])
    rfl
  ⟨h.1, h.2.1⟩

theorem withIndex_fst_ge (off : ℕ) (q : List Player) :
    ∀ ip ∈ withIndex off q, off ≤ ip.1 := by
  induction q generalizing off with
  | nil => simp [withIndex]
  | cons p rest ih =>
    intro ip hip
    simp only [withIndex, List.mem_cons] at hip
    rcases hip with rfl | hip
    · exact le_refl _
    · exact le_trans (Nat.le_succ off) (ih (off + 1) ip hip)

theorem withIndex_pairwise (off : ℕ) (q : List Player) :
    List.Pairwise (fun a b : ℕ × Player => a.1 < b.1) (withIndex off q) := by
  induction q generalizing off with
  | nil => exact List.Pairwise.nil
  | cons p rest ih =>
    refine List.Pairwise.cons ?_ (ih (off + 1))
    intro b hb
    exact lt_of_lt_of_le (Nat.lt_succ_self off) (withIndex_fst_ge (off + 1) rest b hb)

theorem withIndex_mem_getElem (off : ℕ) (q : List Player) :
    ∀ ip ∈ withIndex off q, ∃ j, ip.1 = off + j ∧ q[j]? = some ip.2 := by
  induction q generalizing off with
  | nil => simp [withIndex]
  | cons p rest ih =>
    intro ip hip
    simp only [withIndex, List.mem_cons] at hip
    rcases hip with rfl | hip
    · exact ⟨0, by omega, by simp⟩
    · obtain ⟨j, hj1, hj2⟩ := ih (off + 1) ip hip
      exact ⟨j + 1, by omega, by simpa using hj2⟩

theorem insertByNeedDesc_perm (x : ℕ × Player) (l : List (ℕ × Player)) :
    List.Perm (insertByNeedDesc x l) (x :: l) := by
  induction l with
  | nil => exact List.Perm.refl _
  | cons y ys ih =>
    unfold insertByNeedDesc
    split
    · exact List.Perm.refl _
    · exact (ih.cons y).trans (List.Perm.swap x y ys)

theorem sortByNeedDesc_perm (l : List (ℕ × Player)) :
    List.Perm (sortByNeedDesc l) l := by
  induction l with
  | nil => exact List.Perm.refl _
  | cons x xs ih =>
    exact (insertByNeedDesc_perm x (sortByNeedDesc xs)).trans (ih.cons x)

theorem insertByNeedDesc_pairwise (x : ℕ × Player) (l : List (ℕ × Player))
    (h : List.Pairwise (fun a b => posNeed b ≤ posNeed a) l) :
    List.Pairwise (fun a b => posNeed b ≤ posNeed a) (insertByNeedDesc x l) := by
  induction l with
  | nil => simp [insertByNeedDesc]
  | cons y ys ih =>
    unfold insertByNeedDesc
    split
    · refine List.Pairwise.cons ?_ h
      intro b hb
      rcases List.mem_cons.1 hb with rfl | hb
      · assumption
      · exact le_trans (List.rel_of_pairwise_cons h hb) (by assumption)
    · refine List.Pairwise.cons ?_ (ih h.tail)
      intro b hb
      rcases List.mem_cons.1 ((insertByNeedDesc_perm x ys).mem_iff.1 hb) with rfl | hb2
      · linarith [lt_of_not_le (by assumption : ¬ posNeed y ≤ posNeed b)]
      · exact List.rel_of_pairwise_cons h hb2

theorem sortByNeedDesc_pairwise (l : List (ℕ × Player)) :
    List.Pairwise (fun a b => posNeed b ≤ posNeed a) (sortByNeedDesc l) := by
  induction l with
  | nil => exact List.Pairwise.nil
  | cons x xs ih => exact insertByNeedDesc_pairwise x (sortByNeedDesc xs) ih

theorem map_eraseIdx {α β : Type} (f : α → β) (l : List α) (i : ℕ) :
    (l.eraseIdx i).map f = (l.map f).eraseIdx i := by
  induction l generalizing i with
  | nil => simp [List.eraseIdx]
  | cons x xs ih =>
    cases i with
    | zero => simp [List.eraseIdx]
    | succ j => simp [List.eraseIdx, ih j]

theorem nodup_get_not_mem_eraseIdx {α : Type} (l : List α) (i : ℕ) (h : i < l.length)
    (hn : l.Nodup) : l.get ⟨i, h⟩ ∉ l.eraseIdx i := by
  induction l generalizing i with
  | nil => simp at h
  | cons x xs ih =>
    cases i with
    | zero =>
      simpa [List.eraseIdx] using (List.nodup_cons.1 hn).1
    | succ j =>
      have hj : j < xs.length := by simpa using h
      simp only [List.eraseIdx, List.get_cons_succ, List.mem_cons]
      rintro (hg | hg)
      · exact (List.nodup_cons.1 hn).1 (hg ▸ List.get_mem xs j hj)
      · exact ih j hj (List.nodup_cons.1 hn).2 hg

theorem pickVictims_length (draws : ℕ → ℕ) (k : ℕ) (pool : List (ℕ × Player)) :
    (pickVictims draws k pool).length = min k pool.length := by
  induction k generalizing pool with
  | zero => simp [pickVictims]
  | succ k ih =>
    cases pool with
    | nil => simp [pickVictims]
    | cons x xs =>
      have hidx : draws k % (xs.length + 1) < xs.length + 1 :=
        Nat.mod_lt _ (Nat.succ_pos _)
      simp only [pickVictims, List.length_cons, ih, List.length_eraseIdx]
      rw [if_pos hidx]
      omega

theorem pickVictims_mem (draws : ℕ → ℕ) (k : ℕ) (pool : List (ℕ × Player)) :
    ∀ v ∈ pickVictims draws k pool, v ∈ pool := by
  induction k generalizing pool with
  | zero => simp [pickVictims]
  | succ k ih =>
    cases pool with
    | nil => simp [pickVictims]
    | cons x xs =>
      intro v hv
      simp only [pickVictims, List.mem_cons] at hv
      rcases hv with rfl | hv
      · exact List.get_mem _ _ _
      · exact (List.eraseIdx_sublist (x :: xs) (draws k % (x :: xs).length)).subset
          (ih _ v hv)

theorem pickVictims_nodup (draws : ℕ → ℕ) (k : ℕ) (pool : List (ℕ × Player))
    (h : (pool.map Prod.fst).Nodup) :
    ((pickVictims draws k pool).map Prod.fst).Nodup := by
  induction k generalizing pool with
  | zero => simp [pickVictims]
  | succ k ih =>
    cases pool with
    | nil => simp [pickVictims]
    | cons x xs =>
      have hidx : draws k % (x :: xs).length < (x :: xs).length :=
        Nat.mod_lt _ (Nat.succ_pos _)
      have hidx2 : draws k % (x :: xs).length < ((x :: xs).map Prod.fst).length := by
        simpa using hidx
      simp only [pickVictims, List.map_cons, List.nodup_cons]
      constructor
      · intro hmem
        obtain ⟨v, hv, hveq⟩ := List.mem_map.1 hmem
        have hv2 := pickVictims_mem draws k _ v hv
        have hv3 : v.1 ∈ ((x :: xs).eraseIdx (draws k % (x :: xs).length)).map Prod.fst :=
          List.mem_map_of_mem Prod.fst hv2
        rw [map_eraseIdx] at hv3
        have hv4 : ((x :: xs).map Prod.fst).get
            ⟨draws k % (x :: xs).length, hidx2⟩ ∈
            ((x :: xs).map Prod.fst).eraseIdx (draws k % (x :: xs).length) := by
          rw [List.get_map]
          exact hveq ▸ hv3
        exact nodup_get_not_mem_eraseIdx _ _ hidx2 h hv4
      · refine ih _ ?_
        rw [map_eraseIdx]
        exact (List.eraseIdx_sublist _ _).nodup h

theorem markVictims_getElem (cfg : SimulationConfig) (vs : List ℕ) (off : ℕ)
    (q : List Player) (i : ℕ) (p : Player) (hp : q[i]? = some p) :
    (markVictims cfg vs off q)[i]? =
      some (if vs.contains (off + i) then slashPlayer cfg p else p) := by
  induction q generalizing off i with
  | nil => simp at hp
  | cons x xs ih =>
    cases i with
    | zero =>
      simp only [List.getElem?_cons_zero, Option.some_inj] at hp
      subst hp
      simp [markVictims]
    | succ j =>
      rw [List.getElem?_cons_succ] at hp
      have := ih (off + 1) j hp
      simp only [markVictims, List.getElem?_cons_succ]
      rw [this]
      have hoff : off + 1 + j = off + (j + 1) := by omega
      rw [hoff]

theorem triggerGuillotine_small (cfg : SimulationConfig) (draws : ℕ → ℕ)
    (q : List Player) (h : q.length < 5) : triggerGuillotine cfg draws q = q := by
  simp [triggerGuillotine, h]

theorem triggerGuillotine_eq (cfg : SimulationConfig) (draws : ℕ → ℕ)
    (q : List Player) (h5 : ¬ q.length < 5)
    (hne : ¬ (guillotineCandidates cfg q).length = 0) :
    triggerGuillotine cfg draws q =
      markVictims cfg ((pickVictims draws 10 (guillotineCandidates cfg q)).map Prod.fst)
        0 q := by
  simp [triggerGuillotine, h5, hne]

theorem guillotineCandidates_fst_nodup (cfg : SimulationConfig) (q : List Player) :
    ((guillotineCandidates cfg q).map Prod.fst).Nodup := by
  have h1 : List.Pairwise (fun a b : ℕ × Player => a.1 < b.1)
      ((withIndex 0 q).filter fun ip => guillotineEligible cfg ip.2) :=
    (withIndex_pairwise 0 q).sublist (List.filter_sublist _)
  have h2 : (((withIndex 0 q).filter fun ip => guillotineEligible cfg ip.2).map
      Prod.fst).Nodup :=
    List.pairwise_map.2 (h1.imp fun hlt => ne_of_lt hlt)
  have h3 : ((sortByNeedDesc ((withIndex 0 q).filter fun ip =>
      guillotineEligible cfg ip.2)).map Prod.fst).Nodup :=
    ((sortByNeedDesc_perm _).map Prod.fst).nodup_iff.2 h2
  exact ((List.take_sublist 30 _).map Prod.fst).nodup h3

theorem mem_guillotineCandidates (cfg : SimulationConfig) (q : List Player)
    (v : ℕ × Player) (hv : v ∈ guillotineCandidates cfg q) :
    guillotineEligible cfg v.2 = true ∧ q[v.1]? = some v.2 := by
  have h1 : v ∈ sortByNeedDesc ((withIndex 0 q).filter fun ip =>
      guillotineEligible cfg ip.2) :=
    (List.take_sublist 30 _).subset (by simpa [guillotineCandidates] using hv)
  have h2 : v ∈ (withIndex 0 q).filter fun ip => guillotineEligible cfg ip.2 :=
    ((sortByNeedDesc_perm _).mem_iff).1 h1
  have helig := List.of_mem_filter h2
  obtain ⟨j, hj1, hj2⟩ := withIndex_mem_getElem 0 q v (List.mem_of_mem_filter h2)
  refine ⟨by simpa using helig, ?_⟩
  rw [hj1, Nat.zero_add]
  exact hj2

/-- C9 amended: on a triggered sweep (queue ≥ 5, candidate pool
nonempty), the candidate pool is exactly the active positions that are
not yet slashed, not the protocol seed, not bots, and have deposit
strictly above the whale threshold - stably sorted by descending
remaining liability (target - collected) and capped to the top 30;
exactly min(10, pool size) victims are drawn without replacement from
that pool (distinct queue indices, all from the pool); each victim's
target is multiplied by (1 - guillotineStrength) with its slashed flag
set, and every other position is untouched. -/
theorem guillotine_sweep_spec (cfg : SimulationConfig) (draws : ℕ → ℕ)
    (q : List Player) (h5 : ¬ q.length < 5)
    (hne : ¬ (guillotineCandidates cfg q).length = 0) :
    List.Perm
      (sortByNeedDesc ((withIndex 0 q).filter fun ip => guillotineEligible cfg ip.2))
      ((withIndex 0 q).filter fun ip => guillotineEligible cfg ip.2) ∧
    List.Pairwise (fun a b => posNeed b ≤ posNeed a) (guillotineCandidates cfg q) ∧
    (pickVictims draws 10 (guillotineCandidates cfg q)).length =
      min 10 (guillotineCandidates cfg q).length ∧
    (∀ v ∈ pickVictims draws 10 (guillotineCandidates cfg q),
      v ∈ guillotineCandidates cfg q ∧ guillotineEligible cfg v.2 = true ∧
        q[v.1]? = some v.2) ∧
    ((pickVictims draws 10 (guillotineCandidates cfg q)).map Prod.fst).Nodup ∧
    (∀ (i : ℕ) (p : Player), q[i]? = some p →
      (triggerGuillotine cfg draws q)[i]? =
        some (if ((pickVictims draws 10 (guillotineCandidates cfg q)).map
            Prod.fst).contains i
          then slashPlayer cfg p else p)) ∧
    (∀ p : Player,
      (slashPlayer cfg p).target = p.target * (1 - cfg.guillotineStrength) ∧
        (slashPlayer cfg p).slashed = true) := by
  refine ⟨sortByNeedDesc_perm _, ?_, pickVictims_length draws 10 _, ?_,
    pickVictims_nodup draws 10 _ (guillotineCandidates_fst_nodup cfg q), ?_,
    fun p => ⟨rfl, rfl⟩⟩
  · simp only [guillotineCandidates]
    exact (sortByNeedDesc_pairwise _).sublist (List.take_sublist 30 _)
  · intro v hv
    have hcand := pickVictims_mem draws 10 _ v hv
    obtain ⟨helig, hget⟩ := mem_guillotineCandidates cfg q v hcand
    exact ⟨hcand, helig, hget⟩
  · intro i p hp
    rw [triggerGuillotine_eq cfg draws q h5 hne,
      markVictims_getElem cfg
        ((pickVictims draws 10 (guillotineCandidates cfg q)).map Prod.fst) 0 q i p hp]
    rw [Nat.zero_add]

/-- Modelled from the spec wording of C9 (for comparison with the
source's guillotineCandidates): candidates are exactly the active
positions with deposit above the whale threshold, excluding the
protocol seed and bot positions - with no exclusion of already-slashed
positions - sorted by descending remaining liability, capped to 30. -/
def guillotineCandidatesClaim (cfg : SimulationConfig) (q : List Player) :
    List (ℕ × Player) :=
  (sortByNeedDesc ((withIndex 0 q).filter fun ip =>
    !isBotId ip.2.id && !(ip.2.id == PlayerId.seed) &&
      decide (cfg.guillotineThreshold < ip.2.deposit))).take 30

/-- The C9 counterexample queue: an already-slashed whale (deposit 1000
above the threshold 900) among four small positions. -/
def q9c : List Player :=
  [{ mkUserPos 0 1000 2000 0 with slashed := true }, mkUserPos 1 100 200 0,
   mkUserPos 2 100 200 0, mkUserPos 3 100 200 0, mkUserPos 4 100 200 0]

/-- C9 counterexample: with five active positions including an
already-slashed whale above the threshold, the candidate pool computed
by the source is empty, while the pool described by the claim (which
does not exclude slashed positions) contains the whale - so the
candidates are not "exactly" the unexcluded above-threshold positions. -/
theorem guillotine_candidates_cex :
    5 ≤ q9c.length ∧
    guillotineCandidates defaultConfig q9c = [] ∧
    guillotineCandidatesClaim defaultConfig q9c =
      [(0, { mkUserPos 0 1000 2000 0 with slashed := true })] ∧
    guillotineCandidates defaultConfig q9c ≠
      guillotineCandidatesClaim defaultConfig q9c := by
  refine ⟨by norm_num [q9c], ?_, ?_, ?_⟩ <;>
    norm_num [guillotineCandidates, guillotineCandidatesClaim, withIndex,
      sortByNeedDesc, insertByNeedDesc, posNeed, guillotineEligible, isBotId,
      mkUserPos, q9c, defaultConfig]

/-- The C9 witness queue: two unslashed whales (needs 2000 and 1900)
among three small positions. -/
def q9w : List Player :=
  [mkUserPos 0 1000 2000 0, mkUserPos 1 950 1900 0, mkUserPos 2 100 200 0,
   mkUserPos 3 100 200 0, mkUserPos 4 100 200 0]

/-- Witness for guillotine_sweep_spec: on the concrete queue with two
eligible whales, exactly min(10, 2) = 2 victims are drawn, and index 0
is slashed according to the drawn victim set. -/
theorem guillotine_sweep_spec_witness :
    (pickVictims (fun _ => 0) 10 (guillotineCandidates defaultConfig q9w)).length =
      min 10 (guillotineCandidates defaultConfig q9w).length ∧
    (triggerGuillotine defaultConfig (fun _ => 0) q9w)[0]? =
      some (if ((pickVictims (fun _ => 0) 10
            (guillotineCandidates defaultConfig q9w)).map Prod.fst).contains 0
        then slashPlayer defaultConfig (mkUserPos 0 1000 2000 0)
        else mkUserPos 0 1000 2000 0) :=
  have h := guillotine_sweep_spec defaultConfig (fun _ => 0) q9w
    (by norm_num [q9w])
    (by norm_num [guillotineCandidates, withIndex, sortByNeedDesc,
      insertByNeedDesc, posNeed, guillotineEligible, isBotId, mkUserPos, q9w,
      defaultConfig])
  ⟨h.2.2.1, h.2.2.2.2.2.1 0 (mkUserPos 0 1000 2000 0) (by norm_num [q9w])⟩

/-- C10: each position is slashed at most once.  The sweep is the
identity when fewer than 5 positions are active; a position whose
slashed flag is already set is left completely unchanged by the sweep
(the candidate filter excludes it); and the remaining queue operations
- head-fill, yield split, and the survivors of the cleanup sweep -
never change a position's slashed flag or target, so over any run the
guillotine reduces a given position's target at most one time. -/
theorem guillotine_slash_at_most_once :
    (∀ (cfg : SimulationConfig) (draws : ℕ → ℕ) (q : List Player),
        q.length < 5 → triggerGuillotine cfg draws q = q) ∧
    (∀ (cfg : SimulationConfig) (draws : ℕ → ℕ) (q : List Player) (i : ℕ) (p : Player),
        q[i]? = some p → p.slashed = true →
        (triggerGuillotine cfg draws q)[i]? = some p) ∧
    (∀ (pool : ℚ) (q : List Player),
        ((fifoFill pool q).2).map (fun p => (p.slashed, p.target)) =
          q.map fun p => (p.slashed, p.target)) ∧
    (∀ (yp : ℚ) (q : List Player),
        (yieldPhase yp q).map (fun p => (p.slashed, p.target)) =
          q.map fun p => (p.slashed, p.target)) ∧
    (∀ (cfg : SimulationConfig) (round : ℕ) (q : List Player),
        (cleanupSweep cfg round q).kept.map (fun p => (p.slashed, p.target)) =
          (q.filter fun p => !retireReady p).map fun p => (p.slashed, p.target)) := by
  refine ⟨triggerGuillotine_small, ?_, ?_, ?_, ?_⟩
  · intro cfg draws q i p hp hsl
    by_cases h5 : q.length < 5
    · rw [triggerGuillotine_small cfg draws q h5]
      exact hp
    · by_cases hne : (guillotineCandidates cfg q).length = 0
      · simp only [triggerGuillotine, if_neg h5, if_pos hne]
        exact hp
      · rw [triggerGuillotine_eq cfg draws q h5 hne,
          markVictims_getElem cfg
            ((pickVictims draws 10 (guillotineCandidates cfg q)).map Prod.fst) 0 q i p hp,
          Nat.zero_add]
        have hcontains : ((pickVictims draws 10 (guillotineCandidates cfg q)).map
            Prod.fst).contains i = false := by
          refine Bool.eq_false_iff.2 fun hmem => ?_
          obtain ⟨b, hb, hbeq⟩ := List.contains_iff_exists_mem_beq.1 hmem
          obtain ⟨v, hv, hveq⟩ := List.mem_map.1 hb
          obtain ⟨helig, hget⟩ := mem_guillotineCandidates cfg q v
            (pickVictims_mem draws 10 _ v hv)
          rw [hveq, ← eq_of_beq hbeq, hp, Option.some_inj] at hget
          rw [← hget] at helig
          simp only [guillotineEligible, hsl, Bool.not_true, Bool.false_and] at helig
          exact Bool.false_ne_true helig
        rw [hcontains]
        simp
  · intro pool q
    induction q generalizing pool with
    | nil => simp [fifoFill]
    | cons p rest ih =>
      by_cases h0 : pool ≤ 0
      · rw [fifoFill_nonpos _ _ h0]
      · by_cases hsk : p.target - p.collected ≤ 0
        · rw [fifoFill_cons_skip _ _ _ h0 hsk]
          simp [ih pool]
        · by_cases hfull : p.target - p.collected ≤ pool
          · rw [fifoFill_cons_full _ _ _ h0 hsk hfull]
            simp [ih (pool - (p.target - p.collected))]
          · rw [fifoFill_cons_stop _ _ _ h0 hsk hfull]
            simp
  · intro yp q
    unfold yieldPhase
    split
    · rw [List.map_map]
      rfl
    · rfl
  · intro cfg round q
    rw [cleanupSweep_kept, List.map_map]
    refine List.map_congr_left ?_
    intro a _
    simp [touchFast_slashed, touchFast_target, Function.comp]

/-- Witness for guillotine_slash_at_most_once: a 1-element queue is
untouched (fewer than 5 active), and the already-slashed whale of the
concrete 5-element queue is left unchanged by the sweep. -/
theorem guillotine_slash_at_most_once_witness :
    triggerGuillotine defaultConfig (fun _ => 0) [initialSeed] = [initialSeed] ∧
    (triggerGuillotine defaultConfig (fun _ => 0) q9c)[0]? =
      some { mkUserPos 0 1000 2000 0 with slashed := true } :=
  ⟨guillotine_slash_at_most_once.1 defaultConfig (fun _ => 0) [initialSeed]
      (by norm_num),
   guillotine_slash_at_most_once.2.1 defaultConfig (fun _ => 0) q9c 0
      { mkUserPos 0 1000 2000 0 with slashed := true } (by norm_num [q9c]) rfl⟩
